import Mathlib

set_option maxHeartbeats 1000000

/-!
Verification of the quantum-fragility playground's core engine.

The numerical code is embedded over `ℝ` (JavaScript numbers idealised as
reals, as the spec's "within floating tolerance" phrasing intends); a second
model `JsNum` with explicit `NaN`/`±Infinity` values captures the IEEE
special-value propagation that the finiteness claims are about.  The discrete
simulators (Bell, GHZ, BB84) consume an explicit stream of boolean draws, one
per `Math.random() < 0.5` test in the source.
-/

noncomputable section

/-- Bloch vector `{x, y, z}` (`src/types/quantum.ts`), components as reals. -/
@[ext]
structure BlochVector where
  x : ℝ
  y : ℝ
  z : ℝ

/-- Noise configuration (`src/types/quantum.ts`): four channel strengths and a
`speed` rate multiplier. -/
structure NoiseParams where
  depolarizing : ℝ
  phaseFlip : ℝ
  bitFlip : ℝ
  amplitudeDamping : ℝ
  speed : ℝ

/-- Squared Euclidean length of a Bloch vector. -/
def len2 (v : BlochVector) : ℝ := v.x ^ 2 + v.y ^ 2 + v.z ^ 2

/-- JavaScript `a || 0` on an ordinary (non-`NaN`) number: `0` when `a` is
falsy (i.e. zero), otherwise `a` itself. -/
def jsOr0 (a : ℝ) : ℝ := if a = 0 then 0 else a

/-- Step 0 of `applyNoiseStep` (`src/hooks/useBlochState.ts`): Larmor
precession of `(x, y)` around the z axis by `theta = 5.0 * rate * dt`. -/
def precess (v : BlochVector) (rate dt : ℝ) : BlochVector :=
  let theta := 5.0 * rate * dt
  ⟨v.x * Real.cos theta - v.y * Real.sin theta,
   v.x * Real.sin theta + v.y * Real.cos theta,
   v.z⟩

/-- Step 1: depolarizing channel, `exp(-(p * 2.0 * rate) * dt)` shrink of all
three components, guarded by `p > 0`. -/
def depolStep (v : BlochVector) (p rate dt : ℝ) : BlochVector :=
  if p > 0 then
    let factor := Real.exp (-(p * 2.0 * rate) * dt)
    ⟨v.x * factor, v.y * factor, v.z * factor⟩
  else v

/-- Step 2: amplitude damping (T1): `x, y` shrink by `exp(-gamma1 * dt / 2)`,
`z` relaxes toward `1` as `1 - (1 - z) * exp(-gamma1 * dt)`. -/
def ampStep (v : BlochVector) (p rate dt : ℝ) : BlochVector :=
  if p > 0 then
    let gamma1 := p * 1.5 * rate
    let factorXY := Real.exp (-gamma1 * dt / 2)
    let factorZ := Real.exp (-gamma1 * dt)
    ⟨v.x * factorXY, v.y * factorXY, 1 - (1 - v.z) * factorZ⟩
  else v

/-- Step 3: phase flip (dephasing): `x, y` shrink by
`exp(-(p * 3.0 * rate) * dt)`. -/
def phaseStep (v : BlochVector) (p rate dt : ℝ) : BlochVector :=
  if p > 0 then
    let factor := Real.exp (-(p * 3.0 * rate) * dt)
    ⟨v.x * factor, v.y * factor, v.z⟩
  else v

/-- Step 4: bit flip: `y, z` shrink by `exp(-(p * 2.0 * rate) * dt)`. -/
def bitStep (v : BlochVector) (p rate dt : ℝ) : BlochVector :=
  if p > 0 then
    let factor := Real.exp (-(p * 2.0 * rate) * dt)
    ⟨v.x, v.y * factor, v.z * factor⟩
  else v

/-- Final safety clamp of `applyNoiseStep`: if `x*x + y*y + z*z > 1.000001`,
rescale by `1 / sqrt r2`. -/
def clampStep (v : BlochVector) : BlochVector :=
  let r2 := v.x * v.x + v.y * v.y + v.z * v.z
  if r2 > 1.000001 then
    let r := Real.sqrt r2
    ⟨v.x / r, v.y / r, v.z / r⟩
  else v

/-- The `{ x: x || 0, y: y || 0, z: z || 0 }` in the return of
`applyNoiseStep`. -/
def sanitizeV (v : BlochVector) : BlochVector := ⟨jsOr0 v.x, jsOr0 v.y, jsOr0 v.z⟩

/-- Function `applyNoiseStep` (`src/hooks/useBlochState.ts`, second hook file): one
fixed-`dt` evolution step, stages applied in source order.  `rate` models
`noise.speed || 1`. -/
def applyNoiseStep (v : BlochVector) (noise : NoiseParams) (dt : ℝ) : BlochVector :=
  let rate := if noise.speed = 0 then 1 else noise.speed
  sanitizeV (clampStep
    (bitStep
      (phaseStep
        (ampStep
          (depolStep (precess v rate dt) noise.depolarizing rate dt)
          noise.amplitudeDamping rate dt)
        noise.phaseFlip rate dt)
      noise.bitFlip rate dt))

/-- The fixed time increment of the evolution loop, `BASE_DT = 0.01`. -/
def BASE_DT : ℝ := 0.01

/-- Iterated stepper: `n` successive calls with the same noise parameters. -/
def stepN (n : ℕ) (v : BlochVector) (noise : NoiseParams) (dt : ℝ) : BlochVector :=
  match n with
  | 0 => v
  | Nat.succ m => applyNoiseStep (stepN m v noise dt) noise dt

/-- State owned by `useTimeEvolution` (`src/hooks/useBlochState.ts`): current
vector, history buffer, and the running flag. -/
structure EvolState where
  current : BlochVector
  history : List BlochVector
  running : Bool

/-- Function `scrubToIndex` (`src/hooks/useBlochState.ts` lines 451-457): look up
`history[index]`; if it is `undefined` (out-of-range index) return with no
state change, otherwise pause (`setRunning(false)`) and copy the snapshot
into the current vector.  History is not written. -/
def scrubToIndex (s : EvolState) (i : ℤ) : EvolState :=
  match (if 0 ≤ i then s.history.get? i.toNat else none) with
  | none => s
  | some target => { s with running := false, current := target }

/-- A parsed circuit gate (`types/quantum.ts` `CircuitGate`): symbolic gate
name, acted-on qubit, optional target qubit, optional rotation angle.  The
gate name is kept as a string because the structured-JSON path carries
arbitrary symbols through unvalidated. -/
structure CircuitGate where
  gate : String
  qubit : ℕ
  target : Option ℕ := none
  angle : Option ℝ := none

/-- Function `applyGateToBloch` (`QiskitVisualizer`, `src/unnamed/part_003`): fixed
linear map per gate symbol; `CNOT` attenuates by `0.7`; unknown symbols fall
through to `default: return v`. -/
def applyGateToBloch (v : BlochVector) (g : CircuitGate) : BlochVector :=
  match g.gate with
  | "H" => ⟨v.z, v.y, v.x⟩
  | "X" => ⟨v.x, -v.y, -v.z⟩
  | "Y" => ⟨-v.x, v.y, -v.z⟩
  | "Z" => ⟨-v.x, -v.y, v.z⟩
  | "S" =>
    let ca := Real.cos (Real.pi / 2)
    let sa := Real.sin (Real.pi / 2)
    ⟨v.x * ca - v.y * sa, v.x * sa + v.y * ca, v.z⟩
  | "T" =>
    let ca := Real.cos (Real.pi / 4)
    let sa := Real.sin (Real.pi / 4)
    ⟨v.x * ca - v.y * sa, v.x * sa + v.y * ca, v.z⟩
  | "CNOT" => ⟨v.x * 0.7, v.y * 0.7, v.z * 0.7⟩
  | _ => v

/-- Function `applyGate` (`qfp/src/routes/QasmVisualizer.tsx` lines 33-51): same fixed
maps for `H,X,Y,Z,S,T`, everything else (including `CNOT` and `M`) is the
identity via `default: return v`. -/
def applyGate (v : BlochVector) (g : CircuitGate) : BlochVector :=
  match g.gate with
  | "H" => ⟨v.z, v.y, v.x⟩
  | "X" => ⟨v.x, -v.y, -v.z⟩
  | "Y" => ⟨-v.x, v.y, -v.z⟩
  | "Z" => ⟨-v.x, -v.y, v.z⟩
  | "S" =>
    let ca := Real.cos (Real.pi / 2)
    let sa := Real.sin (Real.pi / 2)
    ⟨v.x * ca - v.y * sa, v.x * sa + v.y * ca, v.z⟩
  | "T" =>
    let ca := Real.cos (Real.pi / 4)
    let sa := Real.sin (Real.pi / 4)
    ⟨v.x * ca - v.y * sa, v.x * sa + v.y * ca, v.z⟩
  | _ => v

/-- Function `applyDecoherence` (identical in `part_003` and the gate builder):
`x, y` scale by `1 - amount`, `z` decays toward `+1`. -/
def applyDecoherence (v : BlochVector) (amount : ℝ) : BlochVector :=
  let factor := 1 - amount
  ⟨v.x * factor, v.y * factor, v.z * (1 - amount / 2) + amount / 2⟩

/-- Renormalisation used after each gate in the interactive builders:
`L = sqrt(x² + y² + z²)`, divide through when `L > 1`. -/
def clampIfGt1 (v : BlochVector) : BlochVector :=
  let l := Real.sqrt (v.x ^ 2 + v.y ^ 2 + v.z ^ 2)
  if l > 1 then ⟨v.x / l, v.y / l, v.z / l⟩ else v

/-- One iteration of the `QiskitVisualizer` step-through loop body
(`part_003` lines 71-74): gate map, then the gate-noise decoherence pass,
then renormalise if the length exceeds 1. -/
def stepGate (v : BlochVector) (g : CircuitGate) (gateNoise : ℝ) : BlochVector :=
  clampIfGt1 (applyDecoherence (applyGateToBloch v g) gateNoise)

/-- JavaScript IEEE-754 numbers with the special values made explicit:
a finite value (sign of zero not tracked), the two infinities, and `NaN`. -/
inductive JsNum where
  | fin : ℝ → JsNum
  | inf : JsNum
  | ninf : JsNum
  | nan : JsNum

namespace JsNum

/-- IEEE negation. -/
def neg : JsNum → JsNum
  | fin a => fin (-a)
  | inf => ninf
  | ninf => inf
  | nan => nan

/-- IEEE addition: `∞ + (-∞) = NaN`, `NaN` absorbs. -/
def add : JsNum → JsNum → JsNum
  | nan, _ => nan
  | _, nan => nan
  | inf, ninf => nan
  | ninf, inf => nan
  | inf, _ => inf
  | _, inf => inf
  | ninf, _ => ninf
  | _, ninf => ninf
  | fin a, fin b => fin (a + b)

/-- IEEE subtraction, defined as `a + (-b)` (agrees with IEEE). -/
def sub (a b : JsNum) : JsNum := add a (neg b)

/-- IEEE multiplication: `∞ * 0 = NaN`, signs of infinities tracked. -/
def mul : JsNum → JsNum → JsNum
  | nan, _ => nan
  | _, nan => nan
  | inf, inf => inf
  | inf, ninf => ninf
  | ninf, inf => ninf
  | ninf, ninf => inf
  | inf, fin b => if b > 0 then inf else if b < 0 then ninf else nan
  | fin a, inf => if a > 0 then inf else if a < 0 then ninf else nan
  | ninf, fin b => if b > 0 then ninf else if b < 0 then inf else nan
  | fin a, ninf => if a > 0 then ninf else if a < 0 then inf else nan
  | fin a, fin b => fin (a * b)

/-- IEEE division (signed zero ignored: finite / 0 with a nonzero numerator is
taken as `+∞` for a positive numerator, `-∞` for a negative one). -/
def div : JsNum → JsNum → JsNum
  | nan, _ => nan
  | _, nan => nan
  | inf, inf => nan
  | inf, ninf => nan
  | ninf, inf => nan
  | ninf, ninf => nan
  | inf, fin b => if b ≥ 0 then inf else ninf
  | ninf, fin b => if b ≥ 0 then ninf else inf
  | fin _, inf => fin 0
  | fin _, ninf => fin 0
  | fin a, fin b =>
    if b = 0 then (if a = 0 then nan else if a > 0 then inf else ninf)
    else fin (a / b)

/-- IEEE `Math.exp` on JS numbers. -/
def jexp : JsNum → JsNum
  | fin a => fin (Real.exp a)
  | inf => inf
  | ninf => fin 0
  | nan => nan

/-- IEEE `Math.cos`: `NaN` on non-finite input. -/
def jcos : JsNum → JsNum
  | fin a => fin (Real.cos a)
  | _ => nan

/-- IEEE `Math.sin`: `NaN` on non-finite input. -/
def jsin : JsNum → JsNum
  | fin a => fin (Real.sin a)
  | _ => nan

/-- IEEE `Math.sqrt`: `NaN` below zero, and infinity maps to infinity. -/
def jsqrt : JsNum → JsNum
  | fin a => if a < 0 then nan else fin (Real.sqrt a)
  | inf => inf
  | _ => nan

/-- The JS `>` comparison: false whenever either side is `NaN`. -/
def gtJ : JsNum → JsNum → Prop
  | nan, _ => False
  | _, nan => False
  | inf, inf => False
  | inf, _ => True
  | _, inf => False
  | ninf, ninf => False
  | _, ninf => True
  | ninf, _ => False
  | fin a, fin b => b < a

instance : ∀ a b : JsNum, Decidable (gtJ a b) := by
  intro a b
  cases a <;> cases b <;> simp only [gtJ] <;> infer_instance

/-- JS truthiness of a number: everything except `0`, `-0` and `NaN`. -/
def truthy : JsNum → Prop
  | fin a => a ≠ 0
  | nan => False
  | _ => True

instance : ∀ a : JsNum, Decidable (truthy a) := by
  intro a
  cases a <;> simp only [truthy] <;> infer_instance

/-- JS `a || b`. -/
def orElse (a b : JsNum) : JsNum := if truthy a then a else b

/-- Whether a JS number is an ordinary finite value. -/
def isFinite : JsNum → Prop
  | fin _ => True
  | _ => False

instance : ∀ a : JsNum, Decidable (isFinite a) := by
  intro a
  cases a <;> simp only [isFinite] <;> infer_instance

/-- Whether a JS number is `NaN`. -/
def isNaN : JsNum → Prop
  | nan => True
  | _ => False

instance : ∀ a : JsNum, Decidable (isNaN a) := by
  intro a
  cases a <;> simp only [isNaN] <;> infer_instance

end JsNum

/-- Bloch vector over JS numbers (IEEE specials explicit). -/
structure JsVec where
  x : JsNum
  y : JsNum
  z : JsNum

/-- Noise parameters over JS numbers. -/
structure JsNoise where
  depolarizing : JsNum
  phaseFlip : JsNum
  bitFlip : JsNum
  amplitudeDamping : JsNum
  speed : JsNum

namespace JsStep

open JsNum

/-- Precession stage of `applyNoiseStep` in the IEEE model:
`theta = (5.0 * rate) * dt`, rotate `(x, y)`. -/
def precessJ (v : JsVec) (rate dt : JsNum) : JsVec :=
  let theta := mul (mul (fin 5) rate) dt
  let cosT := jcos theta
  let sinT := jsin theta
  ⟨sub (mul v.x cosT) (mul v.y sinT),
   add (mul v.x sinT) (mul v.y cosT),
   v.z⟩

/-- Depolarizing stage in the IEEE model. -/
def depolStepJ (v : JsVec) (p rate dt : JsNum) : JsVec :=
  if gtJ p (fin 0) then
    let factor := jexp (mul (neg (mul (mul p (fin 2)) rate)) dt)
    ⟨mul v.x factor, mul v.y factor, mul v.z factor⟩
  else v

/-- Amplitude-damping stage in the IEEE model. -/
def ampStepJ (v : JsVec) (p rate dt : JsNum) : JsVec :=
  if gtJ p (fin 0) then
    let gamma1 := mul (mul p (fin 1.5)) rate
    let factorXY := jexp (div (mul (neg gamma1) dt) (fin 2))
    let factorZ := jexp (mul (neg gamma1) dt)
    ⟨mul v.x factorXY, mul v.y factorXY,
     sub (fin 1) (mul (sub (fin 1) v.z) factorZ)⟩
  else v

/-- Phase-flip stage in the IEEE model. -/
def phaseStepJ (v : JsVec) (p rate dt : JsNum) : JsVec :=
  if gtJ p (fin 0) then
    let factor := jexp (mul (neg (mul (mul p (fin 3)) rate)) dt)
    ⟨mul v.x factor, mul v.y factor, v.z⟩
  else v

/-- Bit-flip stage in the IEEE model. -/
def bitStepJ (v : JsVec) (p rate dt : JsNum) : JsVec :=
  if gtJ p (fin 0) then
    let factor := jexp (mul (neg (mul (mul p (fin 2)) rate)) dt)
    ⟨v.x, mul v.y factor, mul v.z factor⟩
  else v

/-- Safety-clamp stage in the IEEE model: `r2 = x*x + y*y + z*z`; rescale by
`Math.sqrt(r2)` only when `r2 > 1.000001` (false whenever `r2` is `NaN`). -/
def clampStepJ (v : JsVec) : JsVec :=
  let r2 := add (add (mul v.x v.x) (mul v.y v.y)) (mul v.z v.z)
  if gtJ r2 (fin 1.000001) then
    let r := jsqrt r2
    ⟨div v.x r, div v.y r, div v.z r⟩
  else v

/-- The final `{ x: x || 0, y: y || 0, z: z || 0 }` in the IEEE model: `NaN`
and `±0` become `0`, infinities pass through (they are truthy). -/
def sanitizeJ (v : JsVec) : JsVec :=
  ⟨orElse v.x (fin 0), orElse v.y (fin 0), orElse v.z (fin 0)⟩

/-- Function `applyNoiseStep` in the IEEE model, stages in source order;
`rate = noise.speed || 1`. -/
def applyNoiseStepJ (v : JsVec) (noise : JsNoise) (dt : JsNum) : JsVec :=
  let rate := orElse noise.speed (fin 1)
  sanitizeJ (clampStepJ
    (bitStepJ
      (phaseStepJ
        (ampStepJ
          (depolStepJ (precessJ v rate dt) noise.depolarizing rate dt)
          noise.amplitudeDamping rate dt)
        noise.phaseFlip rate dt)
      noise.bitFlip rate dt))

/-- History cap `[...history, v].slice(-MAX_HISTORY)` with `MAX_HISTORY = 600`. -/
def sliceLast600 (l : List JsVec) : List JsVec := l.drop (l.length - 600)

/-- One animation-frame tick of the `useTimeEvolution` loop with a single
stepper call (`steps = 1`): advance the current vector by `BASE_DT` and
append the result to the capped history. -/
def tickOnce (cur : JsVec) (hist : List JsVec) (noise : JsNoise) : JsVec × List JsVec :=
  let v := applyNoiseStepJ cur noise (fin BASE_DT)
  (v, sliceLast600 (hist ++ [v]))

/-- The all-zero noise configuration (speed slider at 1). -/
def jsNoiseZero : JsNoise :=
  ⟨JsNum.fin 0, JsNum.fin 0, JsNum.fin 0, JsNum.fin 0, JsNum.fin 1⟩

end JsStep

end

/-- Outcome counts of `simulateBell` (`server/quantumSim.ts`): keys `"00"`,
`"01"`, `"10"`, `"11"`. -/
structure BellOutcomeCounts where
  c00 : ℕ
  c01 : ℕ
  c10 : ℕ
  c11 : ℕ
deriving DecidableEq

/-- Function `simulateBell(shots)`: each shot consumes one `Math.random() < 0.5` draw
(`g i` is the result of the draw in iteration `i`) and increments `"00"` on
true, `"11"` on false. -/
def simulateBell : ℕ → (ℕ → Bool) → BellOutcomeCounts
  | 0, _ => ⟨0, 0, 0, 0⟩
  | n + 1, g =>
    let c := simulateBell n g
    if g n then { c with c00 := c.c00 + 1 } else { c with c11 := c.c11 + 1 }

/-- Outcome counts of `simulateGhz`: the eight 3-bit keys. -/
structure GhzOutcomeCounts where
  c000 : ℕ
  c001 : ℕ
  c010 : ℕ
  c011 : ℕ
  c100 : ℕ
  c101 : ℕ
  c110 : ℕ
  c111 : ℕ
deriving DecidableEq

/-- Function `simulateGhz(shots)`: each shot increments `"000"` or `"111"`. -/
def simulateGhz : ℕ → (ℕ → Bool) → GhzOutcomeCounts
  | 0, _ => ⟨0, 0, 0, 0, 0, 0, 0, 0⟩
  | n + 1, g =>
    let c := simulateGhz n g
    if g n then { c with c000 := c.c000 + 1 } else { c with c111 := c.c111 + 1 }

/-- BB84 measurement basis. -/
inductive Bb84Basis where
  | Z : Bb84Basis
  | X : Bb84Basis
deriving DecidableEq

/-- Helper `randomBit()`: `Math.random() < 0.5 ? 0 : 1`, with the draw made
explicit. -/
def randomBit (b : Bool) : ℕ := if b then 0 else 1

/-- Helper `randomBasis()`: `Math.random() < 0.5 ? 'Z' : 'X'`. -/
def randomBasis (b : Bool) : Bb84Basis := if b then Bb84Basis.Z else Bb84Basis.X

/-- One row of the BB84 trace (`Bb84TraceRow`); `eveBasis = none` stands for
the `'-'` placeholder. -/
structure Bb84TraceRow where
  id : ℕ
  aliceBit : ℕ
  aliceBasis : Bb84Basis
  eveBasis : Option Bb84Basis
  bobBasis : Bb84Basis
  bobBit : ℕ
  keep : Bool
  error : Bool
deriving DecidableEq

/-- The per-round data of `runBb84`'s loop body before accumulation. -/
structure Bb84Round where
  aliceBit : ℕ
  aliceBasis : Bb84Basis
  eveBasisUsed : Option Bb84Basis
  bobBasis : Bb84Basis
  bobResult : ℕ
  isMatch : Bool
  isError : Bool
deriving DecidableEq

/-- One round of `runBb84` (`server/quantumSim.ts` lines 75-112).  `g` is the
stream of `Math.random() < 0.5` draws and `k` the index of the next unused
draw; every call of `randomBit`/`randomBasis` in the source consumes one
draw, in source order. -/
def bb84Step (withEve : Bool) (g : ℕ → Bool) (k : ℕ) : Bb84Round × ℕ :=
  let aliceBit := randomBit (g k)
  let aliceBasis := randomBasis (g (k + 1))
  let t : ℕ × Bb84Basis × Option Bb84Basis × ℕ :=
    if withEve then
      let eveBasis := randomBasis (g (k + 2))
      if eveBasis ≠ aliceBasis then
        (randomBit (g (k + 3)), eveBasis, some eveBasis, k + 4)
      else
        (aliceBit, aliceBasis, some eveBasis, k + 3)
    else
      (aliceBit, aliceBasis, none, k + 2)
  let transmittedBit := t.1
  let transmittedBasis := t.2.1
  let eveUsed := t.2.2.1
  let k2 := t.2.2.2
  let bobBasis := randomBasis (g k2)
  let br : ℕ × ℕ :=
    if bobBasis = transmittedBasis then (transmittedBit, k2 + 1)
    else (randomBit (g (k2 + 1)), k2 + 2)
  let bobResult := br.1
  let k3 := br.2
  let isMatch := decide (aliceBasis = bobBasis)
  let isError := isMatch && decide (bobResult ≠ aliceBit)
  (⟨aliceBit, aliceBasis, eveUsed, bobBasis, bobResult, isMatch, isError⟩, k3)

/-- Accumulated loop state of `runBb84`: sifted count, error count, trace so
far, and the index of the next random draw. -/
structure Bb84Acc where
  sifted : ℕ
  errors : ℕ
  trace : List Bb84TraceRow
  k : ℕ

/-- The `runBb84` loop after `n` rounds (rounds `0 .. n-1` in order):
`sifted++` on a basis match, `errors++` on a sifted mismatch of bits, trace
rows pushed only for the first 50 rounds. -/
def bb84Loop (withEve : Bool) (g : ℕ → Bool) : ℕ → Bb84Acc
  | 0 => ⟨0, 0, [], 0⟩
  | n + 1 =>
    let acc := bb84Loop withEve g n
    let step := bb84Step withEve g acc.k
    let r := step.1
    let row : Bb84TraceRow :=
      ⟨n + 1, r.aliceBit, r.aliceBasis, r.eveBasisUsed, r.bobBasis,
       r.bobResult, r.isMatch, r.isError⟩
    { sifted := if r.isMatch then acc.sifted + 1 else acc.sifted
      errors := if r.isMatch then (if r.isError then acc.errors + 1 else acc.errors)
                else acc.errors
      trace := acc.trace ++ (if n < 50 then [row] else [])
      k := step.2 }

/-- Summary type `Bb84RunSummary`: rounds, sifted key length, error rate
(`errors / sifted`, `0` when nothing was sifted), capped trace. -/
structure Bb84RunSummary where
  rounds : ℕ
  siftedKeyLength : ℕ
  errorRate : ℚ
  trace : List Bb84TraceRow

/-- Function `runBb84({rounds, withEve})` with the random draws made explicit. -/
def runBb84 (rounds : ℕ) (withEve : Bool) (g : ℕ → Bool) : Bb84RunSummary :=
  let acc := bb84Loop withEve g rounds
  ⟨rounds, acc.sifted,
   if acc.sifted > 0 then (acc.errors : ℚ) / (acc.sifted : ℚ) else 0,
   acc.trace⟩

/-- Whitespace for the purposes of JS `parseInt` / `trim`. -/
def jsIsSpace (c : Char) : Bool :=
  c = ' ' || c = '\t' || c = '\n' || c = '\r' || c = '\x0b' || c = '\x0c'

/-- Decimal value of a digit string. -/
def digitsToNat (l : List Char) : ℕ :=
  l.foldl (fun acc c => acc * 10 + (c.toNat - '0'.toNat)) 0

/-- JS `parseInt(s, 10)`: skip leading whitespace, optional sign, then the
longest prefix of decimal digits; `none` models the `NaN` result when no
digit is found.  Any trailing garbage (including a fractional part such as
`.7`) is ignored. -/
def parseIntJs (s : String) : Option ℤ :=
  let l := s.toList.dropWhile jsIsSpace
  let signAndRest : ℤ × List Char :=
    match l with
    | '-' :: rest => (-1, rest)
    | '+' :: rest => (1, rest)
    | _ => (1, l)
  let ds := signAndRest.2.takeWhile Char.isDigit
  if ds.isEmpty then none else some (signAndRest.1 * (digitsToNat ds : ℤ))

/-- Validation of the `POST /api/experiments/bell` handler
(`server/index.ts` portion of `quantumSim.ts`, lines 253-263): the raw
`shots` body field (already passed through JS `String(...)`, defaulting to
`'100'` when absent) is parsed with `parseInt(·, 10)`; the request is
rejected with a 400 (`none`) iff the parse is `NaN` or the value lies
outside `[1, 10000]`; otherwise the parsed integer is used (`some`). -/
def bellValidateShots (shotsRaw : Option String) : Option ℤ :=
  let s := shotsRaw.getD "100"
  match parseIntJs s with
  | none => none
  | some n => if n < 1 ∨ n > 10000 then none else some n

/-- JS `String.prototype.trim` on a character list. -/
def trimChars (l : List Char) : List Char :=
  ((l.dropWhile jsIsSpace).reverse.dropWhile jsIsSpace).reverse

/-- The `line.replace(/;$/, '')` step: drop one trailing semicolon if present. -/
def stripSemi (l : List Char) : List Char :=
  if l.getLast? = some ';' then l.dropLast else l

/-- A regex `\w` word character: `[A-Za-z0-9_]`. -/
def isWordChar (c : Char) : Bool :=
  ('a' ≤ c && c ≤ 'z') || ('A' ≤ c && c ≤ 'Z') || ('0' ≤ c && c ≤ '9') || c = '_'

/-- Match `\s+\w+\[(\d+)\]` at the head of `l`, returning the captured qubit
index.  Greedy matching without backtracking is exact here because each
character class is disjoint from the character that must follow it. -/
def matchSpWordIdx (l : List Char) : Option ℕ :=
  let sp := l.takeWhile jsIsSpace
  if sp.isEmpty then none else
  let r1 := l.dropWhile jsIsSpace
  let w := r1.takeWhile isWordChar
  if w.isEmpty then none else
  match r1.dropWhile isWordChar with
  | '[' :: r2 =>
    let d := r2.takeWhile Char.isDigit
    if d.isEmpty then none else
    match r2.dropWhile Char.isDigit with
    | ']' :: _ => some (digitsToNat d)
    | _ => none
  | _ => none

/-- Match the unanchored regex `/measure\s+\w+\[(\d+)\]/` against `l`: try
each start position left to right. -/
def searchMeasure : List Char → Option ℕ
  | [] => none
  | c :: rest =>
    match (if ("measure".toList).isPrefixOf (c :: rest) then
             matchSpWordIdx ((c :: rest).drop 7) else none) with
    | some q => some q
    | none => searchMeasure rest

/-- Match the anchored regex `/^cx\s+\w+\[(\d+)\]\s*,\s*\w+\[(\d+)\]/`,
returning control and target indices. -/
def matchCx (l : List Char) : Option (ℕ × ℕ) :=
  if ("cx".toList).isPrefixOf l then
    let r0 := l.drop 2
    match matchSpWordIdx r0 with
    | none => none
    | some q =>
      -- skip over the part `\s+\w+\[\d+\]` that was just matched
      let r1 := r0.dropWhile jsIsSpace
      let r2 := (r1.dropWhile isWordChar).drop 1
      let r3 := (r2.dropWhile Char.isDigit).drop 1
      let r4 := r3.dropWhile jsIsSpace
      match r4 with
      | ',' :: r5 =>
        let r6 := r5.dropWhile jsIsSpace
        let w := r6.takeWhile isWordChar
        if w.isEmpty then none else
        match r6.dropWhile isWordChar with
        | '[' :: r7 =>
          let d := r7.takeWhile Char.isDigit
          if d.isEmpty then none else
          match r7.dropWhile Char.isDigit with
          | ']' :: _ => some (q, digitsToNat d)
          | _ => none
        | _ => none
      | _ => none
  else none

/-- Match the anchored regex `/^(\w+)\s+\w+\[(\d+)\]/`: leading gate word
(as characters) and qubit index. -/
def matchGateLine (l : List Char) : Option (List Char × ℕ) :=
  let w := l.takeWhile isWordChar
  if w.isEmpty then none else
  match matchSpWordIdx (l.dropWhile isWordChar) with
  | some q => some (w, q)
  | none => none

/-- The recognised single-qubit gate symbols of `parseQASM`. -/
def qasmGateNames : List String := ["H", "X", "Y", "Z", "S", "T"]

/-- JS `startsWith` on a character list. -/
def startsWithL (l : List Char) (p : String) : Bool :=
  p.toList.isPrefixOf l

/-- JS `toUpperCase` on a word (character-wise ASCII upcasing). -/
def upperWord (w : List Char) : String :=
  String.mk (w.map Char.toUpper)

/-- One line of `parseQASM` (`qfp/src/routes/QasmVisualizer.tsx` lines
13-31): trim and strip a trailing `;`; skip blanks, headers, comments and
register declarations; `measure` lines, `cx` lines and recognised
single-qubit gate lines produce one gate each; everything else produces
nothing. -/
def parseLine (line : String) : List CircuitGate :=
  let t := stripSemi (trimChars line.toList)
  if t.isEmpty then []
  else if startsWithL t "OPENQASM" || startsWithL t "include" || startsWithL t "//"
       || startsWithL t "qreg" || startsWithL t "creg" then []
  else if startsWithL t "measure" then
    match searchMeasure t with
    | some q => [⟨"M", q, none, none⟩]
    | none => []
  else
    match matchCx t with
    | some (q, tgt) => [⟨"CNOT", q, some tgt, none⟩]
    | none =>
      match matchGateLine t with
      | some (w, q) =>
        let g := upperWord w
        if g ∈ qasmGateNames then [⟨g, q, none, none⟩] else []
      | none => []

/-- Function `parseQASM` applied to an explicit list of lines: the concatenation of
each line's parsed gates. -/
def parseQASMLines (ls : List String) : List CircuitGate :=
  (ls.map parseLine).flatten

/-- Function `parseQASM(src)`: split on newlines and process each line. -/
def parseQASM (src : String) : List CircuitGate :=
  parseQASMLines (src.splitOn "\n")

/-- A structured (Qiskit-style JSON) circuit: qubit count and gate list. -/
structure QiskitConfig where
  qubits : ℕ
  gates : List CircuitGate

/-- The structured-circuit intake of `QiskitVisualizer` (`part_003` lines
53-64).  The argument is the outcome of `JSON.parse(src)` — `none` when the
text is not syntactically valid JSON (the only case in which the source's
`try` block throws) — and the result pairs the config actually used with the
visible error message, `some "Invalid JSON format"` exactly on a parse
failure.  Gate symbols are never inspected here. -/
def qiskitParse (parsed : Option QiskitConfig) : QiskitConfig × Option String :=
  match parsed with
  | none => (⟨1, []⟩, some "Invalid JSON format")
  | some cfg => (cfg, none)

/-! ### Helper lemmas: real-number model of the stepper -/

theorem jsOr0_eq (a : ℝ) : jsOr0 a = a := by
  unfold jsOr0
  split
  · rename_i h
    exact h.symm
  · rfl

theorem sanitizeV_eq (v : BlochVector) : sanitizeV v = v := by
  ext <;> simp [sanitizeV, jsOr0_eq]

theorem len2_nonneg (v : BlochVector) : 0 ≤ len2 v := by
  unfold len2; positivity

theorem len2_precess (v : BlochVector) (rate dt : ℝ) :
    len2 (precess v rate dt) = len2 v := by
  simp only [precess, len2]
  have h := Real.sin_sq_add_cos_sq (5.0 * rate * dt)
  linear_combination (v.x ^ 2 + v.y ^ 2) * h

theorem exp_le_one_of_nonneg {t : ℝ} (h : 0 ≤ t) : Real.exp (-t) ≤ 1 := by
  rw [show (1 : ℝ) = Real.exp 0 by rw [Real.exp_zero]]
  exact Real.exp_le_exp.mpr (by linarith)

theorem len2_depolStep_le (v : BlochVector) (p rate dt : ℝ)
    (hrate : 0 ≤ rate) (hdt : 0 ≤ dt) (hv : len2 v ≤ 1) :
    len2 (depolStep v p rate dt) ≤ 1 := by
  unfold depolStep
  split
  · rename_i hp
    have hprod : (0 : ℝ) ≤ p * 2.0 * rate * dt :=
      mul_nonneg (mul_nonneg (mul_nonneg hp.le (by norm_num)) hrate) hdt
    have hf1 : Real.exp (-(p * 2.0 * rate) * dt) ≤ 1 := by
      rw [show -(p * 2.0 * rate) * dt = -(p * 2.0 * rate * dt) by ring]
      exact exp_le_one_of_nonneg hprod
    have hf0 : (0 : ℝ) < Real.exp (-(p * 2.0 * rate) * dt) := Real.exp_pos _
    have hff : Real.exp (-(p * 2.0 * rate) * dt) ^ 2 ≤ 1 := by nlinarith
    simp only [len2] at *
    nlinarith [mul_nonneg (mul_nonneg hf0.le hf0.le) (sub_nonneg.mpr hv),
      sub_nonneg.mpr hff]
  · exact hv

theorem len2_phaseStep_le (v : BlochVector) (p rate dt : ℝ)
    (hrate : 0 ≤ rate) (hdt : 0 ≤ dt) (hv : len2 v ≤ 1) :
    len2 (phaseStep v p rate dt) ≤ 1 := by
  unfold phaseStep
  split
  · rename_i hp
    have hprod : (0 : ℝ) ≤ p * 3.0 * rate * dt :=
      mul_nonneg (mul_nonneg (mul_nonneg hp.le (by norm_num)) hrate) hdt
    have hf1 : Real.exp (-(p * 3.0 * rate) * dt) ≤ 1 := by
      rw [show -(p * 3.0 * rate) * dt = -(p * 3.0 * rate * dt) by ring]
      exact exp_le_one_of_nonneg hprod
    have hf0 : (0 : ℝ) < Real.exp (-(p * 3.0 * rate) * dt) := Real.exp_pos _
    have hff : Real.exp (-(p * 3.0 * rate) * dt) ^ 2 ≤ 1 := by nlinarith
    simp only [len2] at *
    nlinarith [mul_nonneg (sq_nonneg v.x) (sub_nonneg.mpr hff),
      mul_nonneg (sq_nonneg v.y) (sub_nonneg.mpr hff)]
  · exact hv

theorem len2_bitStep_le (v : BlochVector) (p rate dt : ℝ)
    (hrate : 0 ≤ rate) (hdt : 0 ≤ dt) (hv : len2 v ≤ 1) :
    len2 (bitStep v p rate dt) ≤ 1 := by
  unfold bitStep
  split
  · rename_i hp
    have hprod : (0 : ℝ) ≤ p * 2.0 * rate * dt :=
      mul_nonneg (mul_nonneg (mul_nonneg hp.le (by norm_num)) hrate) hdt
    have hf1 : Real.exp (-(p * 2.0 * rate) * dt) ≤ 1 := by
      rw [show -(p * 2.0 * rate) * dt = -(p * 2.0 * rate * dt) by ring]
      exact exp_le_one_of_nonneg hprod
    have hf0 : (0 : ℝ) < Real.exp (-(p * 2.0 * rate) * dt) := Real.exp_pos _
    have hff : Real.exp (-(p * 2.0 * rate) * dt) ^ 2 ≤ 1 := by nlinarith
    simp only [len2] at *
    nlinarith [mul_nonneg (sq_nonneg v.y) (sub_nonneg.mpr hff),
      mul_nonneg (sq_nonneg v.z) (sub_nonneg.mpr hff)]
  · exact hv

theorem len2_amp_le (v : BlochVector) (f : ℝ) (hf0 : 0 ≤ f) (hf1 : f ≤ 1)
    (hv : len2 v ≤ 1) :
    len2 ⟨v.x * f, v.y * f, 1 - (1 - v.z) * (f * f)⟩ ≤ 1 := by
  have hs0 : 0 ≤ f * f := mul_nonneg hf0 hf0
  have hs1 : f * f ≤ 1 := by nlinarith
  simp only [len2] at *
  nlinarith [mul_nonneg hs0 (sub_nonneg.mpr hv),
    mul_nonneg (mul_nonneg hs0 (sq_nonneg (1 - v.z))) (sub_nonneg.mpr hs1)]

theorem len2_ampStep_le (v : BlochVector) (p rate dt : ℝ)
    (hrate : 0 ≤ rate) (hdt : 0 ≤ dt) (hv : len2 v ≤ 1) :
    len2 (ampStep v p rate dt) ≤ 1 := by
  unfold ampStep
  split
  · rename_i hp
    have hfz : Real.exp (-(p * 1.5 * rate) * dt)
        = Real.exp (-(p * 1.5 * rate) * dt / 2) * Real.exp (-(p * 1.5 * rate) * dt / 2) := by
      rw [← Real.exp_add]; ring_nf
    have hf0 : 0 ≤ Real.exp (-(p * 1.5 * rate) * dt / 2) := (Real.exp_pos _).le
    have hprod : (0 : ℝ) ≤ p * 1.5 * rate * dt / 2 :=
      div_nonneg (mul_nonneg (mul_nonneg (mul_nonneg hp.le (by norm_num)) hrate) hdt)
        (by norm_num)
    have hf1 : Real.exp (-(p * 1.5 * rate) * dt / 2) ≤ 1 := by
      rw [show -(p * 1.5 * rate) * dt / 2 = -(p * 1.5 * rate * dt / 2) by ring]
      exact exp_le_one_of_nonneg hprod
    show len2 ⟨v.x * Real.exp (-(p * 1.5 * rate) * dt / 2),
      v.y * Real.exp (-(p * 1.5 * rate) * dt / 2),
      1 - (1 - v.z) * Real.exp (-(p * 1.5 * rate) * dt)⟩ ≤ 1
    rw [hfz]
    exact len2_amp_le v _ hf0 hf1 hv
  · exact hv

theorem clampStep_eq_of_le (v : BlochVector) (hv : len2 v ≤ 1) :
    clampStep v = v := by
  unfold clampStep
  rw [if_neg]
  intro h
  have : v.x * v.x + v.y * v.y + v.z * v.z = len2 v := by simp [len2]; ring
  rw [this] at h
  norm_num at h
  linarith

theorem len2_clampStep_le (v : BlochVector) : len2 (clampStep v) ≤ 1.000001 := by
  dsimp only [clampStep]
  split
  · rename_i h
    have hpos : (0 : ℝ) < v.x * v.x + v.y * v.y + v.z * v.z := by
      have : (1.000001 : ℝ) > 0 := by norm_num
      linarith
    have hsq : Real.sqrt (v.x * v.x + v.y * v.y + v.z * v.z)
        * Real.sqrt (v.x * v.x + v.y * v.y + v.z * v.z)
        = v.x * v.x + v.y * v.y + v.z * v.z := Real.mul_self_sqrt hpos.le
    have hs : (0 : ℝ) < Real.sqrt (v.x * v.x + v.y * v.y + v.z * v.z) :=
      Real.sqrt_pos.mpr hpos
    simp only [len2]
    rw [div_pow, div_pow, div_pow]
    rw [div_add_div_same, div_add_div_same]
    rw [show Real.sqrt (v.x * v.x + v.y * v.y + v.z * v.z) ^ 2
        = v.x * v.x + v.y * v.y + v.z * v.z by rw [sq]; exact hsq]
    rw [div_le_iff₀ hpos]
    nlinarith
  · rename_i h
    push_neg at h
    have : len2 v = v.x * v.x + v.y * v.y + v.z * v.z := by simp [len2]; ring
    rw [this]
    exact h

theorem applyNoiseStep_len2_le (v : BlochVector) (noise : NoiseParams) (dt : ℝ)
    (hspeed : 0 ≤ noise.speed) (hdt : 0 ≤ dt) (hv : len2 v ≤ 1) :
    len2 (applyNoiseStep v noise dt) ≤ 1 := by
  simp only [applyNoiseStep]
  have hrate : (0 : ℝ) ≤ if noise.speed = 0 then 1 else noise.speed := by
    split
    · norm_num
    · exact hspeed
  set rate := if noise.speed = 0 then 1 else noise.speed with hr
  have h1 : len2 (precess v rate dt) ≤ 1 := by rw [len2_precess]; exact hv
  have h2 := len2_depolStep_le (precess v rate dt) noise.depolarizing rate dt hrate hdt h1
  have h3 := len2_ampStep_le _ noise.amplitudeDamping rate dt hrate hdt h2
  have h4 := len2_phaseStep_le _ noise.phaseFlip rate dt hrate hdt h3
  have h5 := len2_bitStep_le _ noise.bitFlip rate dt hrate hdt h4
  rw [clampStep_eq_of_le _ h5, sanitizeV_eq]
  exact h5

/-- C1: for every noise configuration (channel strengths arbitrary, `speed`
nonnegative as the data model requires) and every starting Bloch vector of
squared length at most 1, after any finite number of stepper calls at the
fixed `BASE_DT` the squared length is still at most 1 — exactly, with no
tolerance needed in the real-number model. -/
theorem purity_bound (v : BlochVector) (noise : NoiseParams) (n : ℕ)
    (hspeed : 0 ≤ noise.speed) (hv : len2 v ≤ 1) :
    len2 (stepN n v noise BASE_DT) ≤ 1 := by
  induction n with
  | zero => exact hv
  | succ m ih =>
    exact applyNoiseStep_len2_le _ _ _ hspeed (by norm_num [BASE_DT]) ih

/-- Witness for C1 at a concrete pure state and a half-strength noise
configuration, three steps. -/
theorem purity_bound_witness :
    len2 (stepN 3 ⟨1, 0, 0⟩ ⟨0.5, 0.5, 0.5, 0.5, 1⟩ BASE_DT) ≤ 1 :=
  purity_bound ⟨1, 0, 0⟩ ⟨0.5, 0.5, 0.5, 0.5, 1⟩ 3 (by norm_num) (by norm_num [len2])

theorem depolStep_zero (v : BlochVector) (rate dt : ℝ) :
    depolStep v 0 rate dt = v := by
  unfold depolStep
  rw [if_neg (lt_irrefl 0)]

theorem ampStep_zero (v : BlochVector) (rate dt : ℝ) :
    ampStep v 0 rate dt = v := by
  unfold ampStep
  rw [if_neg (lt_irrefl 0)]

theorem phaseStep_zero (v : BlochVector) (rate dt : ℝ) :
    phaseStep v 0 rate dt = v := by
  unfold phaseStep
  rw [if_neg (lt_irrefl 0)]

theorem bitStep_zero (v : BlochVector) (rate dt : ℝ) :
    bitStep v 0 rate dt = v := by
  unfold bitStep
  rw [if_neg (lt_irrefl 0)]

/-- C8: with all four channel strengths at 0, a stepper call is exactly the
precession rotation of `(x, y)` around the z axis, and hence leaves the
squared length unchanged — for every starting vector inside the Bloch ball
and every speed. -/
theorem zero_noise_fixed_point (v : BlochVector) (noise : NoiseParams) (dt : ℝ)
    (hdep : noise.depolarizing = 0) (hamp : noise.amplitudeDamping = 0)
    (hph : noise.phaseFlip = 0) (hbit : noise.bitFlip = 0)
    (hv : len2 v ≤ 1) :
    applyNoiseStep v noise dt
        = precess v (if noise.speed = 0 then 1 else noise.speed) dt ∧
    len2 (applyNoiseStep v noise dt) = len2 v := by
  have hpre : len2 (precess v (if noise.speed = 0 then 1 else noise.speed) dt)
      = len2 v := len2_precess v _ dt
  have hstep : applyNoiseStep v noise dt
      = precess v (if noise.speed = 0 then 1 else noise.speed) dt := by
    simp only [applyNoiseStep, hdep, hamp, hph, hbit,
      depolStep_zero, ampStep_zero, phaseStep_zero, bitStep_zero]
    rw [clampStep_eq_of_le _ (by rw [hpre]; exact hv), sanitizeV_eq]
  exact ⟨hstep, by rw [hstep, hpre]⟩

/-- Witness for C8 at `|+⟩` with speed 2. -/
theorem zero_noise_fixed_point_witness :
    len2 (applyNoiseStep ⟨1, 0, 0⟩ ⟨0, 0, 0, 0, 2⟩ BASE_DT)
      = len2 ⟨1, 0, 0⟩ :=
  (zero_noise_fixed_point ⟨1, 0, 0⟩ ⟨0, 0, 0, 0, 2⟩ BASE_DT
    rfl rfl rfl rfl (by norm_num [len2])).2

theorem applyDecoherence_zero (v : BlochVector) : applyDecoherence v 0 = v := by
  ext <;> simp [applyDecoherence]

theorem clampIfGt1_eq_of_le (v : BlochVector) (hv : len2 v ≤ 1) :
    clampIfGt1 v = v := by
  dsimp only [clampIfGt1]
  rw [if_neg]
  exact not_lt.mpr (Real.sqrt_le_one.mpr hv)

theorem stepGate_zero_eq (v : BlochVector) (g : CircuitGate)
    (h : len2 (applyGateToBloch v g) ≤ 1) :
    stepGate v g 0 = applyGateToBloch v g := by
  rw [stepGate, applyDecoherence_zero, clampIfGt1_eq_of_le _ h]

theorem applyGateToBloch_X (v : BlochVector) :
    applyGateToBloch v ⟨"X", 0, none, none⟩ = ⟨v.x, -v.y, -v.z⟩ := rfl

theorem applyGateToBloch_Z (v : BlochVector) :
    applyGateToBloch v ⟨"Z", 0, none, none⟩ = ⟨-v.x, -v.y, v.z⟩ := rfl

theorem applyGateToBloch_H (v : BlochVector) :
    applyGateToBloch v ⟨"H", 0, none, none⟩ = ⟨v.z, v.y, v.x⟩ := rfl

theorem len2_negyz (v : BlochVector) : len2 ⟨v.x, -v.y, -v.z⟩ = len2 v := by
  simp only [len2]; ring

theorem len2_negxy (v : BlochVector) : len2 ⟨-v.x, -v.y, v.z⟩ = len2 v := by
  simp only [len2]; ring

theorem len2_swapxz (v : BlochVector) : len2 ⟨v.z, v.y, v.x⟩ = len2 v := by
  simp only [len2]; ring

/-- C7: on any Bloch vector of (squared) length at most 1, applying `X` twice
with gate-noise strength 0 through the visualizer's step pipeline returns the
original vector exactly; likewise for `Z` and `H`, and likewise for the bare
`applyGate` map of the QASM visualizer. -/
theorem gate_involution (v : BlochVector) (hv : len2 v ≤ 1) :
    stepGate (stepGate v ⟨"X", 0, none, none⟩ 0) ⟨"X", 0, none, none⟩ 0 = v ∧
    stepGate (stepGate v ⟨"Z", 0, none, none⟩ 0) ⟨"Z", 0, none, none⟩ 0 = v ∧
    stepGate (stepGate v ⟨"H", 0, none, none⟩ 0) ⟨"H", 0, none, none⟩ 0 = v ∧
    applyGate (applyGate v ⟨"X", 0, none, none⟩) ⟨"X", 0, none, none⟩ = v ∧
    applyGate (applyGate v ⟨"Z", 0, none, none⟩) ⟨"Z", 0, none, none⟩ = v ∧
    applyGate (applyGate v ⟨"H", 0, none, none⟩) ⟨"H", 0, none, none⟩ = v := by
  refine ⟨?_, ?_, ?_, ?_, ?_, ?_⟩
  · rw [stepGate_zero_eq v _ (by rw [applyGateToBloch_X, len2_negyz]; exact hv),
      applyGateToBloch_X,
      stepGate_zero_eq _ _ (by rw [applyGateToBloch_X, len2_negyz, len2_negyz]; exact hv),
      applyGateToBloch_X]
    ext <;> simp
  · rw [stepGate_zero_eq v _ (by rw [applyGateToBloch_Z, len2_negxy]; exact hv),
      applyGateToBloch_Z,
      stepGate_zero_eq _ _ (by rw [applyGateToBloch_Z, len2_negxy, len2_negxy]; exact hv),
      applyGateToBloch_Z]
    ext <;> simp
  · rw [stepGate_zero_eq v _ (by rw [applyGateToBloch_H, len2_swapxz]; exact hv),
      applyGateToBloch_H,
      stepGate_zero_eq _ _ (by rw [applyGateToBloch_H, len2_swapxz, len2_swapxz]; exact hv),
      applyGateToBloch_H]
  · show applyGate ⟨v.x, -v.y, -v.z⟩ _ = v
    show (⟨v.x, - -v.y, - -v.z⟩ : BlochVector) = v
    ext <;> simp
  · show applyGate ⟨-v.x, -v.y, v.z⟩ _ = v
    show (⟨- -v.x, - -v.y, v.z⟩ : BlochVector) = v
    ext <;> simp
  · show applyGate ⟨v.z, v.y, v.x⟩ _ = v
    rfl

/-- Witness for C7 at a concrete interior point of the Bloch ball. -/
theorem gate_involution_witness :
    stepGate (stepGate ⟨1/2, 1/3, 1/4⟩ ⟨"X", 0, none, none⟩ 0)
      ⟨"X", 0, none, none⟩ 0 = ⟨1/2, 1/3, 1/4⟩ :=
  (gate_involution ⟨1/2, 1/3, 1/4⟩ (by norm_num [len2])).1

/-- C4 counterexample: on a state with a singleton history and evolution
running, `scrubToIndex 5` leaves `running = true` — it does not pause, and it
does not clamp the index into range as the claim asserts. -/
theorem scrub_clamp_counterexample :
    (scrubToIndex ⟨⟨0, 0, 1⟩, [⟨0, 0, 1⟩], true⟩ 5).running = true := rfl

/-- C4 (amended): `scrubToIndex` never mutates history; for an in-range index
it pauses evolution and copies `history[i]` into the current vector; for an
out-of-range index (negative or beyond the buffer) it is a complete no-op —
in particular it does not pause and does not clamp. -/
theorem scrub_semantics (s : EvolState) (i : ℤ) :
    (scrubToIndex s i).history = s.history ∧
    (∀ h : 0 ≤ i ∧ i.toNat < s.history.length,
      (scrubToIndex s i).running = false ∧
      (scrubToIndex s i).current = s.history.get ⟨i.toNat, h.2⟩) ∧
    (¬(0 ≤ i ∧ i.toNat < s.history.length) → scrubToIndex s i = s) := by
  unfold scrubToIndex
  by_cases h0 : 0 ≤ i
  · by_cases hlen : i.toNat < s.history.length
    · rw [if_pos h0, List.get?_eq_get hlen]
      exact ⟨rfl, fun _ => ⟨rfl, rfl⟩, fun hc => absurd ⟨h0, hlen⟩ hc⟩
    · rw [if_pos h0, List.get?_eq_none.mpr (le_of_not_lt hlen)]
      exact ⟨rfl, fun h => absurd h.2 hlen, fun _ => rfl⟩
  · rw [if_neg h0]
    exact ⟨rfl, fun h => absurd h.1 h0, fun _ => rfl⟩

/-- Witness for C4 (amended) at a two-entry history, scrubbing to index 1. -/
theorem scrub_semantics_witness :
    (scrubToIndex ⟨⟨0, 0, 1⟩, [⟨0, 0, 1⟩, ⟨1, 0, 0⟩], true⟩ 1).running = false :=
  ((scrub_semantics ⟨⟨0, 0, 1⟩, [⟨0, 0, 1⟩, ⟨1, 0, 0⟩], true⟩ 1).2.1
    ⟨by norm_num, by norm_num⟩).1

theorem bb84Step_no_eve_no_error (g : ℕ → Bool) (k : ℕ) :
    (bb84Step false g k).1.isError = false := by
  unfold bb84Step
  by_cases hb : randomBasis (g (k + 2)) = randomBasis (g (k + 1))
  · simp [hb]
  · have hba : randomBasis (g (k + 1)) ≠ randomBasis (g (k + 2)) :=
      fun h => hb h.symm
    simp [hb, hba]

theorem bb84Loop_no_eve_errors (g : ℕ → Bool) (n : ℕ) :
    (bb84Loop false g n).errors = 0 := by
  induction n with
  | zero => rfl
  | succ m ih =>
    simp only [bb84Loop]
    simp [bb84Step_no_eve_no_error, ih]

/-- C2: with no eavesdropper, every BB84 round either is unsifted or carries
Bob's bit equal to Alice's, so for every round count and every sequence of
random draws the error counter stays 0 and the reported `errorRate` is
exactly 0. -/
theorem bb84_no_eve_error_free (rounds : ℕ) (g : ℕ → Bool) :
    (bb84Loop false g rounds).errors = 0 ∧
    (runBb84 rounds false g).errorRate = 0 := by
  refine ⟨bb84Loop_no_eve_errors g rounds, ?_⟩
  unfold runBb84
  dsimp only
  rw [bb84Loop_no_eve_errors]
  split <;> simp

theorem simulateBell_support (shots : ℕ) (g : ℕ → Bool) :
    (simulateBell shots g).c01 = 0 ∧ (simulateBell shots g).c10 = 0 ∧
    (simulateBell shots g).c00 + (simulateBell shots g).c11 = shots := by
  induction shots with
  | zero => exact ⟨rfl, rfl, rfl⟩
  | succ n ih =>
    simp only [simulateBell]
    by_cases h : g n <;> simp [h] <;> omega

theorem simulateGhz_support (shots : ℕ) (g : ℕ → Bool) :
    (simulateGhz shots g).c001 = 0 ∧ (simulateGhz shots g).c010 = 0 ∧
    (simulateGhz shots g).c011 = 0 ∧ (simulateGhz shots g).c100 = 0 ∧
    (simulateGhz shots g).c101 = 0 ∧ (simulateGhz shots g).c110 = 0 ∧
    (simulateGhz shots g).c000 + (simulateGhz shots g).c111 = shots := by
  induction shots with
  | zero => exact ⟨rfl, rfl, rfl, rfl, rfl, rfl, rfl⟩
  | succ n ih =>
    simp only [simulateGhz]
    by_cases h : g n <;> simp [h] <;> omega

/-- C3: for every shot count and every draw sequence, `simulateBell` puts
zero in the `"01"` and `"10"` cells and `"00" + "11"` equals the shot count;
`simulateGhz` puts zero in the six mixed cells and `"000" + "111"` equals the
shot count. -/
theorem bell_ghz_outcome_support (shots : ℕ) (g h : ℕ → Bool) :
    (simulateBell shots g).c01 = 0 ∧ (simulateBell shots g).c10 = 0 ∧
    (simulateBell shots g).c00 + (simulateBell shots g).c11 = shots ∧
    (simulateGhz shots h).c001 = 0 ∧ (simulateGhz shots h).c010 = 0 ∧
    (simulateGhz shots h).c011 = 0 ∧ (simulateGhz shots h).c100 = 0 ∧
    (simulateGhz shots h).c101 = 0 ∧ (simulateGhz shots h).c110 = 0 ∧
    (simulateGhz shots h).c000 + (simulateGhz shots h).c111 = shots := by
  obtain ⟨b1, b2, b3⟩ := simulateBell_support shots g
  obtain ⟨g1, g2, g3, g4, g5, g6, g7⟩ := simulateGhz_support shots h
  exact ⟨b1, b2, b3, g1, g2, g3, g4, g5, g6, g7⟩

/-- C6 counterexample: the non-integer numeric value `3.7` does not produce a
400 — `parseInt` truncates it to `3` and the request is accepted. -/
theorem bell_validation_counterexample :
    bellValidateShots (some "3.7") = some 3 := by decide

/-- C6 (amended): the Bell endpoint rejects with 400 exactly when
`parseInt(String(shots), 10)` is `NaN` or its value is outside `[1, 10000]`;
every accepted request uses the leading-integer parse of the input (so
non-integer numerics are truncated, not rejected), and a missing `shots`
defaults to 100. -/
theorem bell_validation (s : String) (n : ℤ) :
    (bellValidateShots (some s) = some n →
      1 ≤ n ∧ n ≤ 10000 ∧ parseIntJs s = some n) ∧
    bellValidateShots (some "0") = none ∧
    bellValidateShots (some "10001") = none ∧
    bellValidateShots (some "abc") = none ∧
    bellValidateShots none = some 100 := by
  refine ⟨?_, by decide, by decide, by decide, by decide⟩
  intro h
  unfold bellValidateShots at h
  simp only [Option.getD_some] at h
  rcases hp : parseIntJs s with _ | m
  · rw [hp] at h
    exact absurd h (by simp)
  · rw [hp] at h
    dsimp only at h
    by_cases hr : m < 1 ∨ m > 10000
    · rw [if_pos hr] at h
      exact absurd h (by simp)
    · rw [if_neg hr] at h
      push_neg at hr
      obtain rfl : m = n := Option.some.inj h
      exact ⟨hr.1, hr.2, rfl⟩

/-- Witness for C6 (amended) on the accepted input `"5"`. -/
theorem bell_validation_witness :
    1 ≤ (5 : ℤ) ∧ (5 : ℤ) ≤ 10000 ∧ parseIntJs "5" = some 5 :=
  (bell_validation "5" 5).1 (by decide)

/-- C9 counterexample: a structured circuit that is valid JSON but contains
the unknown gate symbol `"FOO"` is accepted — the visible error slot stays
empty, no parse error is raised. -/
theorem structured_unknown_gate_counterexample :
    (qiskitParse (some ⟨1, [⟨"FOO", 0, none, none⟩]⟩)).2 = none := rfl

/-- C9 (amended): the structured path errors exactly on syntactically invalid
JSON — a valid config passes through unchanged with no error regardless of
its gate symbols, and an unknown gate symbol acts as the identity on the
Bloch vector; the textual OpenQASM path always succeeds, and a line that
parses to no gate is simply omitted from the result. -/
theorem parser_tolerance (pre post : List String) (l : String)
    (hl : parseLine l = []) (cfg : QiskitConfig) (v : BlochVector)
    (g : CircuitGate) (hg : g.gate ∉ ["H", "X", "Y", "Z", "S", "T", "CNOT"]) :
    parseQASMLines (pre ++ l :: post) = parseQASMLines (pre ++ post) ∧
    (qiskitParse (some cfg)).2 = none ∧
    (qiskitParse (some cfg)).1 = cfg ∧
    (qiskitParse none).2 = some "Invalid JSON format" ∧
    applyGateToBloch v g = v := by
  refine ⟨?_, rfl, rfl, rfl, ?_⟩
  · unfold parseQASMLines
    simp [hl]
  · simp only [List.mem_cons, List.not_mem_nil, or_false, not_or] at hg
    obtain ⟨h1, h2, h3, h4, h5, h6, h7⟩ := hg
    unfold applyGateToBloch
    split <;> simp_all

/-- Witness for C9 (amended): dropping the unrecognized line `"banana"` from
a two-line program does not change the parse. -/
theorem parser_tolerance_witness :
    parseQASMLines (["h q[0];"] ++ "banana" :: ["x q[0];"])
      = parseQASMLines (["h q[0];"] ++ ["x q[0];"]) :=
  (parser_tolerance ["h q[0];"] ["x q[0];"] "banana" rfl ⟨1, []⟩ ⟨0, 0, 1⟩
    ⟨"FOO", 0, none, none⟩ (by decide)).1

/-! ### Helper lemmas: IEEE special-value model -/

namespace JsNum

theorem mul_fin_fin (a b : ℝ) : mul (fin a) (fin b) = fin (a * b) := rfl

theorem add_fin_fin (a b : ℝ) : add (fin a) (fin b) = fin (a + b) := rfl

theorem neg_fin (a : ℝ) : neg (fin a) = fin (-a) := rfl

theorem jcos_fin (a : ℝ) : jcos (fin a) = fin (Real.cos a) := rfl

theorem jsin_fin (a : ℝ) : jsin (fin a) = fin (Real.sin a) := rfl

theorem jexp_fin (a : ℝ) : jexp (fin a) = fin (Real.exp a) := rfl

theorem mul_nan_left (b : JsNum) : mul nan b = nan := by cases b <;> rfl

theorem mul_nan_right (a : JsNum) : mul a nan = nan := by cases a <;> rfl

theorem sub_nan_left (b : JsNum) : sub nan b = nan := by cases b <;> rfl

theorem add_nan_left (b : JsNum) : add nan b = nan := by cases b <;> rfl

theorem mul_inf_inf : mul inf inf = inf := rfl

theorem add_inf_inf : add inf inf = inf := rfl

theorem add_inf_fin (b : ℝ) : add inf (fin b) = inf := rfl

theorem sub_inf_fin (b : ℝ) : sub inf (fin b) = inf := rfl

theorem mul_inf_fin_pos {b : ℝ} (h : 0 < b) : mul inf (fin b) = inf := by
  show (if b > 0 then inf else if b < 0 then ninf else nan) = inf
  rw [if_pos h]

theorem div_inf_inf : div inf inf = nan := rfl

theorem div_fin_inf (a : ℝ) : div (fin a) inf = fin 0 := rfl

theorem div_fin_fin_ne {b : ℝ} (hb : b ≠ 0) (a : ℝ) :
    div (fin a) (fin b) = fin (a / b) := by
  show (if b = 0 then (if a = 0 then nan else if a > 0 then inf else ninf)
        else fin (a / b)) = fin (a / b)
  rw [if_neg hb]

theorem jsqrt_inf : jsqrt inf = inf := rfl

theorem jsqrt_fin_nonneg {a : ℝ} (h : 0 ≤ a) :
    jsqrt (fin a) = fin (Real.sqrt a) := by
  show (if a < 0 then nan else fin (Real.sqrt a)) = fin (Real.sqrt a)
  rw [if_neg (not_lt.mpr h)]

theorem orElse_nan (b : JsNum) : orElse nan b = b := by
  unfold orElse
  rw [if_neg (show ¬ truthy nan from fun h => h)]

theorem orElse_inf (b : JsNum) : orElse inf b = inf := by
  unfold orElse
  rw [if_pos (show truthy inf from trivial)]

theorem orElse_fin_zero (b : JsNum) : orElse (fin 0) b = b := by
  unfold orElse
  rw [if_neg (show ¬ truthy (fin 0) from fun h => h rfl)]

theorem orElse_fin_ne {a : ℝ} (h : a ≠ 0) (b : JsNum) :
    orElse (fin a) b = fin a := by
  unfold orElse
  rw [if_pos (show truthy (fin a) from h)]

theorem orElse_fin_fin (a b : ℝ) : ∃ r : ℝ, orElse (fin a) (fin b) = fin r := by
  unfold orElse
  split
  · exact ⟨a, rfl⟩
  · exact ⟨b, rfl⟩

theorem isFinite_iff (a : JsNum) : a.isFinite ↔ ∃ r, a = fin r := by
  cases a <;> simp [isFinite]

theorem not_gtJ_fin_zero_fin_zero : ¬ gtJ (fin 0) (fin 0) := lt_irrefl 0

end JsNum

namespace JsStep

open JsNum

theorem depolStepJ_zero (v : JsVec) (rate dt : JsNum) :
    depolStepJ v (fin 0) rate dt = v := by
  unfold depolStepJ
  rw [if_neg not_gtJ_fin_zero_fin_zero]

theorem ampStepJ_zero (v : JsVec) (rate dt : JsNum) :
    ampStepJ v (fin 0) rate dt = v := by
  unfold ampStepJ
  rw [if_neg not_gtJ_fin_zero_fin_zero]

theorem phaseStepJ_zero (v : JsVec) (rate dt : JsNum) :
    phaseStepJ v (fin 0) rate dt = v := by
  unfold phaseStepJ
  rw [if_neg not_gtJ_fin_zero_fin_zero]

theorem bitStepJ_zero (v : JsVec) (rate dt : JsNum) :
    bitStepJ v (fin 0) rate dt = v := by
  unfold bitStepJ
  rw [if_neg not_gtJ_fin_zero_fin_zero]

theorem cos_theta_pos : 0 < Real.cos (5 * 1 * BASE_DT) := by
  rw [show (5 : ℝ) * 1 * BASE_DT = 0.05 by norm_num [BASE_DT]]
  apply Real.cos_pos_of_mem_Ioo
  constructor
  · have := Real.pi_pos
    norm_num
    linarith
  · have := Real.pi_gt_three
    norm_num
    linarith

theorem sin_theta_pos : 0 < Real.sin (5 * 1 * BASE_DT) := by
  rw [show (5 : ℝ) * 1 * BASE_DT = 0.05 by norm_num [BASE_DT]]
  apply Real.sin_pos_of_pos_of_lt_pi
  · norm_num
  · have := Real.pi_gt_three
    linarith

end JsStep

open JsNum in
/-- C5 counterexample: a Bloch vector with an infinite `x` component is not
rejected — the stepper runs on it (precession turns `x, y` into `∞`, the
clamp divides by `∞` giving `NaN`/`0`, the final `|| 0` maps `NaN` to `0`)
and the stepped result is appended to the history buffer. -/
theorem nonfinite_not_rejected_counterexample :
    JsStep.tickOnce ⟨inf, fin 0, fin 0⟩ [] JsStep.jsNoiseZero =
      (⟨fin 0, fin 0, fin 0⟩, [⟨fin 0, fin 0, fin 0⟩]) := by
  have hrate : orElse (fin (1 : ℝ)) (fin 1) = fin 1 := orElse_fin_ne one_ne_zero _
  have hpre : JsStep.precessJ ⟨inf, fin 0, fin 0⟩ (fin 1) (fin BASE_DT)
      = ⟨inf, inf, fin 0⟩ := by
    dsimp only [JsStep.precessJ]
    rw [mul_fin_fin, mul_fin_fin, jcos_fin, jsin_fin,
      mul_inf_fin_pos JsStep.cos_theta_pos, mul_inf_fin_pos JsStep.sin_theta_pos,
      mul_fin_fin, mul_fin_fin, sub_inf_fin, add_inf_fin]
  have hclamp : JsStep.clampStepJ ⟨inf, inf, fin (0 : ℝ)⟩ = ⟨nan, nan, fin 0⟩ := by
    dsimp only [JsStep.clampStepJ]
    rw [mul_inf_inf, mul_fin_fin, add_inf_inf, add_inf_fin,
      if_pos (show gtJ inf (fin 1.000001) from trivial),
      jsqrt_inf, div_inf_inf, div_fin_inf]
  have hsan : JsStep.sanitizeJ ⟨nan, nan, fin (0 : ℝ)⟩ = ⟨fin 0, fin 0, fin 0⟩ := by
    dsimp only [JsStep.sanitizeJ]
    rw [orElse_nan, orElse_fin_zero]
  have hstep : JsStep.applyNoiseStepJ ⟨inf, fin 0, fin 0⟩ JsStep.jsNoiseZero
      (fin BASE_DT) = ⟨fin 0, fin 0, fin 0⟩ := by
    dsimp only [JsStep.applyNoiseStepJ, JsStep.jsNoiseZero]
    rw [hrate, hpre, JsStep.depolStepJ_zero, JsStep.ampStepJ_zero,
      JsStep.phaseStepJ_zero, JsStep.bitStepJ_zero, hclamp, hsan]
  dsimp only [JsStep.tickOnce]
  rw [hstep]
  rfl

open JsNum in
/-- C5 (amended): the stepper has no pre-step non-finite guard — it steps on
any input (see the counterexample) — but its return sanitation guarantees
that no component of the result is ever `NaN`: each `NaN` is replaced by `0`
by the final `x || 0`.  Infinities can still escape (see C10). -/
theorem step_result_never_nan (v : JsVec) (noise : JsNoise) (dt : JsNum) :
    ¬ (JsStep.applyNoiseStepJ v noise dt).x.isNaN ∧
    ¬ (JsStep.applyNoiseStepJ v noise dt).y.isNaN ∧
    ¬ (JsStep.applyNoiseStepJ v noise dt).z.isNaN := by
  have key : ∀ a : JsNum, ¬ (orElse a (fin 0)).isNaN := by
    intro a
    unfold orElse
    split
    · rename_i ht
      cases a <;> simp_all [isNaN, truthy]
    · exact fun h => h
  exact ⟨key _, key _, key _⟩

open JsNum in
/-- C10 counterexample: the input `(NaN, 0, ∞)` yields the output
`(0, 0, ∞)` — the `NaN` makes `r2` `NaN`, the clamp comparison is false, the
infinite `z` survives `z || 0`, so the result is not finite. -/
theorem step_infinite_output_counterexample :
    JsStep.applyNoiseStepJ ⟨nan, fin 0, inf⟩ JsStep.jsNoiseZero (fin BASE_DT)
      = ⟨fin 0, fin 0, inf⟩ := by
  have hpre : JsStep.precessJ ⟨nan, fin 0, inf⟩ (fin 1) (fin BASE_DT)
      = ⟨nan, nan, inf⟩ := by
    dsimp only [JsStep.precessJ]
    rw [mul_nan_left, mul_nan_left, sub_nan_left, add_nan_left]
  have hclamp : JsStep.clampStepJ ⟨nan, nan, inf⟩ = ⟨nan, nan, inf⟩ := by
    dsimp only [JsStep.clampStepJ]
    rw [mul_nan_left, add_nan_left, add_nan_left,
      if_neg (show ¬ gtJ nan (fin 1.000001) from fun h => h)]
  have hsan : JsStep.sanitizeJ ⟨nan, nan, inf⟩ = ⟨fin 0, fin 0, inf⟩ := by
    dsimp only [JsStep.sanitizeJ]
    rw [orElse_nan, orElse_inf]
  dsimp only [JsStep.applyNoiseStepJ, JsStep.jsNoiseZero]
  rw [orElse_fin_ne one_ne_zero, hpre, JsStep.depolStepJ_zero,
    JsStep.ampStepJ_zero, JsStep.phaseStepJ_zero, JsStep.bitStepJ_zero,
    hclamp, hsan]

namespace JsStep

open JsNum

theorem precessJ_all_fin (a b c r d : ℝ) :
    ∃ x2 y2, precessJ ⟨fin a, fin b, fin c⟩ (fin r) (fin d) = ⟨fin x2, fin y2, fin c⟩ :=
  ⟨_, _, rfl⟩

theorem depolStepJ_all_fin (a b c p r d : ℝ) :
    ∃ x2 y2 z2, depolStepJ ⟨fin a, fin b, fin c⟩ (fin p) (fin r) (fin d)
      = ⟨fin x2, fin y2, fin z2⟩ := by
  unfold depolStepJ
  split
  · exact ⟨_, _, _, rfl⟩
  · exact ⟨a, b, c, rfl⟩

theorem ampStepJ_all_fin (a b c p r d : ℝ) :
    ∃ x2 y2 z2, ampStepJ ⟨fin a, fin b, fin c⟩ (fin p) (fin r) (fin d)
      = ⟨fin x2, fin y2, fin z2⟩ := by
  unfold ampStepJ
  split
  · dsimp only
    rw [mul_fin_fin, mul_fin_fin, neg_fin, mul_fin_fin,
      div_fin_fin_ne two_ne_zero]
    exact ⟨_, _, _, rfl⟩
  · exact ⟨a, b, c, rfl⟩

theorem phaseStepJ_all_fin (a b c p r d : ℝ) :
    ∃ x2 y2 z2, phaseStepJ ⟨fin a, fin b, fin c⟩ (fin p) (fin r) (fin d)
      = ⟨fin x2, fin y2, fin z2⟩ := by
  unfold phaseStepJ
  split
  · exact ⟨_, _, _, rfl⟩
  · exact ⟨a, b, c, rfl⟩

theorem bitStepJ_all_fin (a b c p r d : ℝ) :
    ∃ x2 y2 z2, bitStepJ ⟨fin a, fin b, fin c⟩ (fin p) (fin r) (fin d)
      = ⟨fin x2, fin y2, fin z2⟩ := by
  unfold bitStepJ
  split
  · exact ⟨_, _, _, rfl⟩
  · exact ⟨a, b, c, rfl⟩

theorem clampStepJ_all_fin (a b c : ℝ) :
    ∃ x2 y2 z2, clampStepJ ⟨fin a, fin b, fin c⟩ = ⟨fin x2, fin y2, fin z2⟩ := by
  dsimp only [clampStepJ]
  rw [mul_fin_fin, mul_fin_fin, mul_fin_fin, add_fin_fin, add_fin_fin]
  by_cases h : gtJ (fin (a * a + b * b + c * c)) (fin 1.000001)
  · rw [if_pos h]
    have hq : (0 : ℝ) ≤ a * a + b * b + c * c := by
      nlinarith [mul_self_nonneg a, mul_self_nonneg b, mul_self_nonneg c]
    have hlt : (1.000001 : ℝ) < a * a + b * b + c * c := h
    have hs : Real.sqrt (a * a + b * b + c * c) ≠ 0 :=
      ne_of_gt (Real.sqrt_pos.mpr (by linarith))
    rw [jsqrt_fin_nonneg hq, div_fin_fin_ne hs, div_fin_fin_ne hs,
      div_fin_fin_ne hs]
    exact ⟨_, _, _, rfl⟩
  · rw [if_neg h]
    exact ⟨a, b, c, rfl⟩

theorem sanitizeJ_all_fin (a b c : ℝ) :
    ∃ x2 y2 z2, sanitizeJ ⟨fin a, fin b, fin c⟩ = ⟨fin x2, fin y2, fin z2⟩ := by
  obtain ⟨x2, hx⟩ := orElse_fin_fin a 0
  obtain ⟨y2, hy⟩ := orElse_fin_fin b 0
  obtain ⟨z2, hz⟩ := orElse_fin_fin c 0
  refine ⟨x2, y2, z2, ?_⟩
  dsimp only [sanitizeJ]
  rw [hx, hy, hz]

end JsStep

open JsNum in
/-- C10 (amended): the stepper's output components are all finite whenever
the input vector and all noise parameters (and `dt`) are finite; but a
non-finite input can leak an infinity through to the output (see the
counterexample), so the unconditional claim fails. -/
theorem step_finite_of_finite (v : JsVec) (noise : JsNoise) (dt : JsNum)
    (hx : v.x.isFinite) (hy : v.y.isFinite) (hz : v.z.isFinite)
    (hdep : noise.depolarizing.isFinite) (hph : noise.phaseFlip.isFinite)
    (hbit : noise.bitFlip.isFinite) (hamp : noise.amplitudeDamping.isFinite)
    (hsp : noise.speed.isFinite) (hdt : dt.isFinite) :
    (JsStep.applyNoiseStepJ v noise dt).x.isFinite ∧
    (JsStep.applyNoiseStepJ v noise dt).y.isFinite ∧
    (JsStep.applyNoiseStepJ v noise dt).z.isFinite := by
  obtain ⟨vx, vy, vz⟩ := v
  obtain ⟨nd, nph, nbit, namp, nsp⟩ := noise
  dsimp only at hx hy hz hdep hph hbit hamp hsp
  obtain ⟨a, rfl⟩ := (isFinite_iff vx).mp hx
  obtain ⟨b, rfl⟩ := (isFinite_iff vy).mp hy
  obtain ⟨c, rfl⟩ := (isFinite_iff vz).mp hz
  obtain ⟨pd, rfl⟩ := (isFinite_iff nd).mp hdep
  obtain ⟨pp, rfl⟩ := (isFinite_iff nph).mp hph
  obtain ⟨pb, rfl⟩ := (isFinite_iff nbit).mp hbit
  obtain ⟨pa, rfl⟩ := (isFinite_iff namp).mp hamp
  obtain ⟨s, rfl⟩ := (isFinite_iff nsp).mp hsp
  obtain ⟨d, rfl⟩ := (isFinite_iff dt).mp hdt
  dsimp only [JsStep.applyNoiseStepJ]
  obtain ⟨r, hr⟩ := orElse_fin_fin s 1
  rw [hr]
  obtain ⟨x1, y1, h1⟩ := JsStep.precessJ_all_fin a b c r d
  rw [h1]
  obtain ⟨x2, y2, z2, h2⟩ := JsStep.depolStepJ_all_fin x1 y1 c pd r d
  rw [h2]
  obtain ⟨x3, y3, z3, h3⟩ := JsStep.ampStepJ_all_fin x2 y2 z2 pa r d
  rw [h3]
  obtain ⟨x4, y4, z4, h4⟩ := JsStep.phaseStepJ_all_fin x3 y3 z3 pp r d
  rw [h4]
  obtain ⟨x5, y5, z5, h5⟩ := JsStep.bitStepJ_all_fin x4 y4 z4 pb r d
  rw [h5]
  obtain ⟨x6, y6, z6, h6⟩ := JsStep.clampStepJ_all_fin x5 y5 z5
  rw [h6]
  obtain ⟨x7, y7, z7, h7⟩ := JsStep.sanitizeJ_all_fin x6 y6 z6
  rw [h7]
  exact ⟨trivial, trivial, trivial⟩

open JsNum in
/-- Witness for C10 (amended) at the all-finite pure state `(1, 0, 0)` under
the zero-noise configuration. -/
theorem step_finite_of_finite_witness :
    (JsStep.applyNoiseStepJ ⟨fin 1, fin 0, fin 0⟩ JsStep.jsNoiseZero
      (fin BASE_DT)).x.isFinite :=
  (step_finite_of_finite ⟨fin 1, fin 0, fin 0⟩ JsStep.jsNoiseZero (fin BASE_DT)
    trivial trivial trivial trivial trivial trivial trivial trivial trivial).1
